import Mathlib

/-!
# Verification of the mangadex-downloader resilient download pipeline

Shallow embedding of the core download pipeline of the repository
(`mangadex_downloader/main.py`, `mangadex_downloader/format/base.py`,
`mangadex_downloader/cli/__init__.py`) together with proofs of the
specification claims about it.

Conventions:
* Python floats appearing as chapter bounds are modelled as rationals
  (only order comparisons on them matter).
* Network and filesystem side effects are modelled as an explicit event
  trace (`Ev`); the filesystem is an explicit set of paths (`FS`).
* Collaborator code that is not part of the embedded sources
  (URL validation, the low-level downloader, the chapter iterator's
  filter) is modelled from the specification; each such definition says
  so in its doc comment.
-/

namespace MangadexDL

/-- A Python value that may appear as a volume label coming from the API:
either an integer or a string (the sentinel `"none"` included).
`main.py` compares volume labels both against the int `0` and against the
string `'none'`. -/
inductive PyLabel where
  | pint (n : Int)
  | pstr (s : String)
  deriving DecidableEq, Repr

/-- Python `v == n` for an int literal `n`: ints compare by value, a string
is never equal to an int. -/
def pyEqInt : PyLabel → Int → Bool
  | .pint m, n => m = n
  | .pstr _, _ => false

/-- Python `v == s` for a string literal `s`: strings compare by value, an
int is never equal to a string. -/
def pyEqStr : PyLabel → String → Bool
  | .pint _, _ => false
  | .pstr t, s => t = s

/-- Python `'%s' % v`: string formatting of a label. -/
def pyStrOf : PyLabel → String
  | .pint n => toString n
  | .pstr s => s

/-- Chapter folder naming, embedded from `main.py` lines 232-243: the
accumulating `chapter_folder` string with the three oneshot sentinel
branches followed by the `Volume./Chapter.` formatting. -/
def chapter_folder (vol : PyLabel) (chap : String) : String :=
  if pyEqInt vol 0 && chap == "none" then "Oneshot"
  else if pyEqStr vol "none" && chap == "none" then "Oneshot"
  else if pyEqStr vol "none" && chap == "0" then "Oneshot"
  else
    (if !pyEqStr vol "none" then "Volume. " ++ pyStrOf vol ++ " " else "")
      ++ "Chapter. " ++ chap

/-- The three oneshot sentinel combinations, as the spec words them
(vol=0 with chap="none"; vol="none" with chap="none"; vol="none" with
chap="0"). -/
def isOneshot (vol : PyLabel) (chap : String) : Prop :=
  (vol = .pint 0 ∧ chap = "none") ∨
  (vol = .pstr "none" ∧ chap = "none") ∨
  (vol = .pstr "none" ∧ chap = "0")

/-- Boolean version of `isOneshot`, used by the (spec-modelled) chapter
filter. -/
def isOneshotB (vol : PyLabel) (chap : String) : Bool :=
  (pyEqInt vol 0 && chap == "none") ||
  (pyEqStr vol "none" && chap == "none") ||
  (pyEqStr vol "none" && chap == "0")

instance (vol : PyLabel) (chap : String) : Decidable (isOneshot vol chap) := by
  unfold isOneshot
  infer_instance

theorem isOneshotB_eq (vol : PyLabel) (chap : String) :
    isOneshotB vol chap = true ↔ isOneshot vol chap := by
  unfold isOneshotB isOneshot
  cases vol <;> simp [pyEqInt, pyEqStr]

theorem volume_prefix_ne_oneshot (s : String) :
    "Volume. " ++ s ≠ "Oneshot" := by
  intro h
  have hl : ("Volume. " ++ s).length = "Oneshot".length := congrArg String.length h
  rw [String.length_append] at hl
  have h8 : "Volume. ".length = 8 := rfl
  have h7 : "Oneshot".length = 7 := rfl
  omega

theorem chapter_prefix_ne_oneshot (s : String) :
    "Chapter. " ++ s ≠ "Oneshot" := by
  intro h
  have hl : ("Chapter. " ++ s).length = "Oneshot".length := congrArg String.length h
  rw [String.length_append] at hl
  have h9 : "Chapter. ".length = 9 := rfl
  have h7 : "Oneshot".length = 7 := rfl
  omega

/-- Normal form of `chapter_folder`: the three sentinel branches collapse to
the single test `isOneshotB`. -/
theorem chapter_folder_eq (vol : PyLabel) (chap : String) :
    chapter_folder vol chap =
      if isOneshotB vol chap then "Oneshot"
      else if pyEqStr vol "none" then "Chapter. " ++ chap
      else "Volume. " ++ (pyStrOf vol ++ (" Chapter. " ++ chap)) := by
  unfold chapter_folder isOneshotB
  by_cases h1 : (pyEqInt vol 0 && chap == "none") = true
  · simp [h1]
  · by_cases h2 : (pyEqStr vol "none" && chap == "none") = true
    · simp [h1, h2]
    · by_cases h3 : (pyEqStr vol "none" && chap == "0") = true
      · simp [h1, h2, h3]
      · by_cases hv : pyEqStr vol "none" = true
        · have hcn : chap ≠ "none" := fun hc => h2 (by simp [hv, hc])
          have hc0 : chap ≠ "0" := fun hc => h3 (by simp [hv, hc])
          simp [h1, h2, h3, hv, hcn, hc0, String.append_assoc]
        · simp [h1, h2, h3, hv, String.append_assoc]

/-- **C5.** For every (volume, chapter) pair, the computed chapter folder
name is exactly `"Oneshot"` for precisely the three oneshot sentinel
combinations (vol=0 with chap="none"; vol="none" with chap="none";
vol="none" with chap="0"); for every other pair it is
`"Volume. {vol} Chapter. {chap}"` when the volume label is not `"none"`,
and `"Chapter. {chap}"` when it is. -/
theorem chapter_folder_spec (vol : PyLabel) (chap : String) :
    (chapter_folder vol chap = "Oneshot" ↔ isOneshot vol chap) ∧
    (¬ isOneshot vol chap →
      chapter_folder vol chap =
        if pyEqStr vol "none" then "Chapter. " ++ chap
        else "Volume. " ++ (pyStrOf vol ++ (" Chapter. " ++ chap))) := by
  rw [chapter_folder_eq]
  by_cases hb : isOneshotB vol chap = true
  · have hp : isOneshot vol chap := (isOneshotB_eq _ _).mp hb
    simp [hb, hp]
  · have hp : ¬ isOneshot vol chap := fun h => hb ((isOneshotB_eq _ _).mpr h)
    rw [if_neg hb]
    refine ⟨⟨fun h => ?_, fun h => absurd h hp⟩, fun _ => rfl⟩
    exfalso
    by_cases hv : pyEqStr vol "none" = true
    · rw [if_pos hv] at h
      exact chapter_prefix_ne_oneshot chap h
    · rw [if_neg hv] at h
      exact volume_prefix_ne_oneshot (pyStrOf vol ++ (" Chapter. " ++ chap)) h

/-- Witness for `chapter_folder_spec` at concrete inputs: the sentinel
(vol="none", chap="0") maps to "Oneshot", and the non-sentinel
(vol=3, chap="12") maps to "Volume. 3 Chapter. 12". -/
theorem chapter_folder_spec_witness :
    chapter_folder (.pstr "none") "0" = "Oneshot" ∧
    chapter_folder (.pint 3) "12" = "Volume. 3 Chapter. 12" := by
  constructor
  · exact (chapter_folder_spec (.pstr "none") "0").1.mpr (by decide)
  · have h := (chapter_folder_spec (.pint 3) "12").2 (by decide)
    rw [h]
    decide

/-! ## The download pipeline (`main.py`) -/

/-- Python-level errors raised by the pipeline. -/
inductive Err where
  | valueError
  | typeError
  | invalidURL
  | unknownLanguage
  | invalidManga
  | chapterNotFound
  | nameError
  deriving DecidableEq, Repr

/-- A value passed as `start_chapter` / `end_chapter`: Python `None`, a
float (modelled as a rational: only order comparisons are performed on
it), or a value of any other type. -/
inductive PyParam where
  | pnone
  | pfloat (q : ℚ)
  | pother
  deriving DecidableEq, Repr

/-- Python `start_chapter > end_chapter` (`main.py` line 177): comparing
two floats yields a boolean; comparison involving `None` raises
`TypeError`. -/
def pyGt : PyParam → PyParam → Except Err Bool
  | .pfloat a, .pfloat b => .ok (decide (b < a))
  | _, _ => .error .typeError

/-- The `language` argument: a valid `Language`/recognized string, an
unrecognized string, or a value of a wrong type. -/
inductive LangParam where
  | ok
  | badStr
  | badType
  deriving DecidableEq, Repr

/-- A relationship entry in the manga data (`main.py` lines 98-112). -/
inductive RelKind where
  | author
  | artist
  | coverArt
  | other
  deriving DecidableEq, Repr

/-- Network request kinds issued by the pipeline. -/
inductive NetKind where
  | manga      -- `get_manga`
  | author     -- `get_author` (authors and artists)
  | coverArt   -- `get_cover_art`
  | chapters   -- `get_all_chapters`
  | imageFetch -- `images.fetch()` (chapter-detail endpoint)
  deriving DecidableEq, Repr

/-- A filesystem path, as a list of components. -/
abbrev FPath := List String

/-- Observable side effects of a `download` call, in order. -/
inductive Ev where
  | net (k : NetKind)
  | mkdir (p : FPath)
  | coverTransfer (url : String) (p : FPath)
  | writeDetails (p : FPath)
  | pageTransfer (p : FPath)
  deriving DecidableEq, Repr

/-- Network activity: every upstream request and every byte transfer. -/
def Ev.isNet : Ev → Bool
  | .net _ => true
  | .coverTransfer _ _ => true
  | .pageTransfer _ => true
  | _ => false

/-- Filesystem output: directory creation and file writes. -/
def Ev.isOutput : Ev → Bool
  | .mkdir _ => true
  | .coverTransfer _ _ => true
  | .writeDetails _ => true
  | .pageTransfer _ => true
  | _ => false

def Ev.isPageTransfer : Ev → Bool
  | .pageTransfer _ => true
  | _ => false

/-- Any byte transfer to a local file (cover or chapter page). -/
def Ev.isTransfer : Ev → Bool
  | .coverTransfer _ _ => true
  | .pageTransfer _ => true
  | _ => false

def Ev.isImageFetch : Ev → Bool
  | .net .imageFetch => true
  | _ => false

/-- The local filesystem: the set of files and of directories present. -/
structure FS where
  files : List FPath
  dirs : List FPath
  deriving DecidableEq, Repr

def insertPath (p : FPath) (ps : List FPath) : List FPath :=
  if p ∈ ps then ps else p :: ps

/-- One chapter as produced by `iter_chapter_images`: volume and chapter
labels, the (spec-modelled) numeric parse of the chapter label used by the
range filter, the page filenames, and the per-(fetch-generation, page)
transfer-success oracle standing for the upstream network. Per §4.2 of the
spec, page filenames are derived deterministically from the page number,
so they are stable across `fetch()` refreshes; only URL liveness (the
oracle) varies with the generation. -/
structure ChEntry where
  vol : PyLabel
  chap : String
  numLabel : Option ℚ
  pages : List String
  succ : Nat → Nat → Bool

/-- The manga object assembled by `fetch` (`main.py` lines 94-126). -/
structure Manga where
  title : String
  cover_art : String
  cover_art_512px : String
  cover_art_256px : String
  chapters : List ChEntry

/-- The upstream world a `download` call runs against. -/
structure World where
  urlOk : Bool        -- `validate_url` accepts the url (pure parsing)
  mangaFound : Bool   -- `get_manga` finds the manga
  rels : List RelKind -- relationships in the manga data
  manga : Manga

/-- Arguments of `download` (`main.py` lines 130-140). -/
structure Params where
  folder : Option String
  replace : Bool
  start : PyParam
  endc : PyParam
  noOneshot : Bool
  lang : LangParam
  cover : String

/-- Modelled from the spec: `sanitize_filename` is a collaborator-provided
filename convention (§1); none of the claims depend on its behavior, so it
is embedded as the identity. -/
def sanitize_filename (s : String) : String := s

/-- Modelled from the spec: the valid cover-quality selectors, the three
resolutions named in §3 and §8 (`utils.valid_cover_types` is not among the
embedded sources). -/
def validCoverTypes : List String := ["original", "512px", "256px"]

/-- Cover-art quality selection, embedded from `main.py` lines 201-207:
the `if/elif` chain binding `cover_url`. `none` corresponds to the
`cover_url` variable staying unbound (unreachable after validation). -/
def coverUrlOf (cover : String) (m : Manga) : Option String :=
  if cover == "original" then some m.cover_art
  else if cover == "512px" then some m.cover_art_512px
  else if cover == "256px" then some m.cover_art_256px
  else none

/-- Python `isinstance(x, float)`. -/
def PyParam.isFloat : PyParam → Bool
  | .pfloat _ => true
  | _ => false

/-- Parameter validation, embedded from `main.py` lines 171-178: the two
type checks followed by the unconditional `start_chapter > end_chapter`
comparison. -/
def startEndCheck (s e : PyParam) : Except Err Unit :=
  if s ≠ .pnone ∧ s.isFloat = false then .error .valueError
  else if e ≠ .pnone ∧ e.isFloat = false then .error .valueError
  else
    match pyGt s e with
    | .error er => .error er
    | .ok true => .error .valueError
    | .ok false => .ok ()

/-- Network events for the relationship loop (`main.py` lines 98-112). -/
def relEvents (rels : List RelKind) : List Ev :=
  rels.filterMap fun r =>
    match r with
    | .author => some (Ev.net .author)
    | .artist => some (Ev.net .author)
    | .coverArt => some (Ev.net .coverArt)
    | .other => none

/-- `fetch` (`main.py` lines 55-128): language parsing, URL validation,
`get_manga`, the relationship loop, `get_all_chapters`. `get_manga`
failing with `InvalidManga` and the chapter wrapper failing with
`ChapterNotFound` on an empty chapter list are modelled from the spec
(§7), as `fetcher.py` is not among the embedded sources. -/
def fetchRun (lang : LangParam) (w : World) : Except Err Manga × List Ev :=
  match lang with
  | .badType => (.error .valueError, [])
  | .badStr => (.error .unknownLanguage, [])
  | .ok =>
    if w.urlOk then
      if w.mangaFound then
        let evs := Ev.net .manga :: relEvents w.rels ++ [Ev.net .chapters]
        if w.manga.chapters.isEmpty then (.error .chapterNotFound, evs)
        else (.ok w.manga, evs)
      else (.error .invalidManga, [Ev.net .manga])
    else (.error .invalidURL, [])

/-- Modelled from the spec: the chapter filter of
`iter_chapter_images` (§4.3; `chapter.py` is not among the embedded
sources): numeric chapter labels must lie within `[start, end]` inclusive
when both bounds are given, non-numeric labels pass through, and
`exclude_oneshot` drops the oneshot sentinel combinations. -/
def selectedChapters (s e : PyParam) (noOneshot : Bool) (chs : List ChEntry) :
    List ChEntry :=
  chs.filter fun ch =>
    (match ch.numLabel, s, e with
     | some n, .pfloat a, .pfloat b => decide (a ≤ n) && decide (n ≤ b)
     | _, _, _ => true)
    && !(noOneshot && isOneshotB ch.vol ch.chap)

/-- One `ChapterPageDownloader(...).download()` call per page
(`main.py` lines 251-260), with the PageDownloader contract modelled from
the spec (§4.1; `downloader.py` is not among the embedded sources):
if the destination exists and `replace` is false the transfer is skipped
and the call succeeds; otherwise the transfer succeeds or fails per the
oracle, and a failed transfer leaves no file behind. Walks the page list
in order, stopping at the first failure (the `break` on line 272).
Returns (files, events, error-flag). -/
def runPass (cdir : FPath) (sc : Nat → Bool) (replace : Bool) :
    List String → Nat → List FPath → List FPath × List Ev × Bool
  | [], _, files => (files, [], false)
  | f :: rest, i, files =>
    if cdir ++ [f] ∈ files ∧ replace = false then
      runPass cdir sc replace rest (i + 1) files
    else if sc i then
      ((runPass cdir sc replace rest (i + 1) (insertPath (cdir ++ [f]) files)).1,
       .pageTransfer (cdir ++ [f]) ::
         (runPass cdir sc replace rest (i + 1)
           (insertPath (cdir ++ [f]) files)).2.1,
       (runPass cdir sc replace rest (i + 1)
         (insertPath (cdir ++ [f]) files)).2.2)
    else (files, [], true)

/-- The `while True` retry loop of one chapter (`main.py` lines 249-277):
run a pass over the pages; on failure, call `images.fetch()` (a network
event, advancing the generation `g`) and restart the pass from the
beginning; on an error-free pass, stop. `fuel` bounds the number of
passes modelled (the source loop is unbounded); `none` means the loop was
still running when the fuel ran out. Returns (files, events, final
generation). -/
def chapterRun (cdir : FPath) (pages : List String) (sc : Nat → Nat → Bool)
    (replace : Bool) : Nat → Nat → List FPath → Option (List FPath × List Ev × Nat)
  | 0, _, _ => none
  | fuel + 1, g, files =>
    if (runPass cdir (sc g) replace pages 0 files).2.2 then
      match chapterRun cdir pages sc replace fuel (g + 1)
          (runPass cdir (sc g) replace pages 0 files).1 with
      | none => none
      | some (f', evs', gf) =>
          some (f', (runPass cdir (sc g) replace pages 0 files).2.1 ++
            Ev.net .imageFetch :: evs', gf)
    else some ((runPass cdir (sc g) replace pages 0 files).1,
      (runPass cdir (sc g) replace pages 0 files).2.1, g)

/-- One chapter of the download loop (`main.py` lines 224-277): the
initial `images.fetch()`, the chapter-folder creation when absent, then
the retry loop starting at generation 1. -/
def chapterDriver (fuel : Nat) (cdir : FPath) (pages : List String)
    (sc : Nat → Nat → Bool) (replace : Bool) (fs : FS) :
    Option (FS × List Ev × Nat) :=
  match chapterRun cdir pages sc replace fuel 1 fs.files with
  | none => none
  | some (files', evs, g) =>
      if cdir ∈ fs.dirs then
        some (⟨files', fs.dirs⟩, Ev.net .imageFetch :: evs, g)
      else
        some (⟨files', cdir :: fs.dirs⟩,
          Ev.net .imageFetch :: Ev.mkdir cdir :: evs, g)

/-- The chapter loop of `download` (`main.py` lines 218-277) over the
already-filtered chapter sequence. -/
def chaptersRun (fuel : Nat) (base : FPath) (replace : Bool) :
    List ChEntry → FS → Option (FS × List Ev)
  | [], fs => some (fs, [])
  | ch :: rest, fs =>
    match chapterDriver fuel (base ++ [chapter_folder ch.vol ch.chap]) ch.pages
        ch.succ replace fs with
    | none => none
    | some (fs', evs, _) =>
      match chaptersRun fuel base replace rest fs' with
      | none => none
      | some (fs'', evs') => some (fs'', evs ++ evs')

/-- The base output path of a `download` call (`main.py` lines 186-191):
optional folder followed by the sanitized manga title. -/
def dlBase (p : Params) (m : Manga) : FPath :=
  (match p.folder with | some f => [f] | none => []) ++
    [sanitize_filename m.title]

/-- `download` (`main.py` lines 130-279): validation, `fetch`, base folder
creation, cover download (`replace=True` on line 210), `details.json`,
then the chapter loop. Returns `none` when the retry loop of some chapter
was still running after `fuel` passes. -/
def downloadRun (fuel : Nat) (p : Params) (w : World) (fs : FS) :
    Option (Except Err Unit × List Ev × FS) :=
  match startEndCheck p.start p.endc with
  | .error er => some (.error er, [], fs)
  | .ok _ =>
    if p.cover ∈ validCoverTypes then
      match fetchRun p.lang w with
      | (.error er, evs) => some (.error er, evs, fs)
      | (.ok m, fevs) =>
        match coverUrlOf p.cover m with
        | none =>
          some (.error .nameError, fevs ++ [Ev.mkdir (dlBase p m)],
            ⟨fs.files, insertPath (dlBase p m) fs.dirs⟩)
        | some curl =>
          match chaptersRun fuel (dlBase p m) p.replace
              (selectedChapters p.start p.endc p.noOneshot m.chapters)
              ⟨insertPath (dlBase p m ++ ["details.json"])
                 (insertPath (dlBase p m ++ ["cover.jpg"]) fs.files),
               insertPath (dlBase p m) fs.dirs⟩ with
          | none => none
          | some (fs', evs3) =>
            some (.ok (),
              (fevs ++
                [Ev.mkdir (dlBase p m),
                 Ev.coverTransfer curl (dlBase p m ++ ["cover.jpg"]),
                 Ev.writeDetails (dlBase p m ++ ["details.json"])]) ++ evs3,
              fs')
    else some (.error .valueError, [], fs)

/-! ## The CLI entry point (`cli/__init__.py`) -/

/-- Observable steps of `_main` (`cli/__init__.py` lines 15-50), in
source order. -/
inductive CliEv where
  | registerHandler
  | parseArgs
  | setupLogging
  | setupProxy
  | login
  | downloadCall
  | logoutCall
  | checkUpdate
  | closeNetwork
  deriving DecidableEq, Repr

/-- `_main` (`cli/__init__.py` lines 15-50): signal handler, argument
parsing, logging setup, then the pre-flight chapter-bound check (lines
26-29) returning 1, else proxy setup, login, download, logout, update
check, cleanup, returning 0. Collaborator calls are modelled as events
that succeed. -/
def cliMain (sc ec : Option ℚ) : Nat × List CliEv :=
  let pre : List CliEv := [.registerHandler, .parseArgs, .setupLogging]
  let rest : List CliEv :=
    [.setupProxy, .login, .downloadCall, .logoutCall, .checkUpdate,
     .closeNetwork]
  match sc, ec with
  | some a, some b => if b < a then (1, pre) else (0, pre ++ rest)
  | some _, Option.none => (0, pre ++ rest)
  | Option.none, _ => (0, pre ++ rest)

/-! ## Claim theorems about the pipeline -/

/-- A sample upstream world used by the concrete witnesses. -/
def W0 : World := ⟨true, true, [], ⟨"T", "u-orig", "u-512", "u-256", []⟩⟩

/-- Reduction of `downloadRun` when parameter validation fails. -/
theorem downloadRun_of_check_error (fuel : Nat) (p : Params) (w : World)
    (fs : FS) (er : Err) (h : startEndCheck p.start p.endc = .error er) :
    downloadRun fuel p w fs = some (.error er, [], fs) := by
  unfold downloadRun
  rw [h]

/-- A successful `startEndCheck` forces both bounds to be floats with
`start ≤ end`. -/
theorem startEndCheck_ok (s e : PyParam) (h : startEndCheck s e = .ok ()) :
    ∃ a b, s = .pfloat a ∧ e = .pfloat b ∧ ¬ b < a := by
  cases s <;> cases e <;>
    simp [startEndCheck, pyGt, PyParam.isFloat] at h ⊢
  case pfloat.pfloat a b =>
    by_cases hba : b < a
    · simp [hba] at h
    · exact le_of_not_lt hba

/-- **C1.** For every call to `download`, every configuration error
(start_chapter > end_chapter with both bounds given, a cover value not in
the valid cover types, an invalid language) is raised as an error before
any network activity occurs — the call returns an error with an empty
event trace and an unchanged filesystem. -/
theorem config_errors_before_network (fuel : Nat) (p : Params) (w : World)
    (fs : FS)
    (h : (∃ a b, p.start = .pfloat a ∧ p.endc = .pfloat b ∧ b < a) ∨
         p.cover ∉ validCoverTypes ∨ p.lang ≠ .ok) :
    ∃ er, downloadRun fuel p w fs = some (.error er, [], fs) := by
  cases hse : startEndCheck p.start p.endc with
  | error er => exact ⟨er, downloadRun_of_check_error fuel p w fs er hse⟩
  | ok u =>
    cases u
    unfold downloadRun
    rw [hse]
    by_cases hc : p.cover ∈ validCoverTypes
    · rw [if_pos hc]
      cases hl : p.lang with
      | ok =>
        exfalso
        rcases h with ⟨a, b, ha, hb, hlt⟩ | h | h
        · rw [ha, hb] at hse
          simp [startEndCheck, pyGt, PyParam.isFloat, hlt] at hse
        · exact h hc
        · exact h hl
      | badStr => exact ⟨.unknownLanguage, by simp [fetchRun]⟩
      | badType => exact ⟨.valueError, by simp [fetchRun]⟩
    · rw [if_neg hc]
      exact ⟨.valueError, rfl⟩

/-- Witness for `config_errors_before_network`: the scenario
`start_chapter=5.0, end_chapter=1.0` raises before any network call. -/
theorem config_errors_before_network_witness :
    ∃ er, downloadRun 1
        ⟨Option.none, false, .pfloat 5, .pfloat 1, false, .ok, "original"⟩
        W0 ⟨[], []⟩ = some (.error er, [], ⟨[], []⟩) :=
  config_errors_before_network 1 _ W0 _ (Or.inl ⟨5, 1, rfl, rfl, by norm_num⟩)

/-- **C10, counterexample.** With `start_chapter=None` and `end_chapter`
of a non-`None`, non-float type, the error raised is the `ValueError` of
the type check on `end_chapter` (`main.py` line 174), not a `TypeError`
from the comparison — so the claim that every call with a `None` bound
raises a `TypeError` from the comparison is false. -/
theorem none_bound_not_always_typeerror :
    downloadRun 1 ⟨Option.none, false, .pnone, .pother, false, .ok, "original"⟩
        W0 ⟨[], []⟩ = some (.error .valueError, [], ⟨[], []⟩) ∧
    Err.valueError ≠ Err.typeError := by
  constructor
  · rfl
  · decide

/-- **C10 (amended).** For every call to `download` in which
`start_chapter` or `end_chapter` is `None` and each given bound is `None`
or a float (this includes the default arguments, where both are `None`),
the unconditional `start_chapter > end_chapter` comparison raises a
`TypeError` before any network activity or filesystem output; and
`download` can only return successfully when both chapter bounds are
floats. (A bound of a non-`None`, non-float type instead raises the type
check's `ValueError`, still before any activity.) -/
theorem none_bounds_raise_typeerror (fuel : Nat) (p : Params) (w : World)
    (fs : FS) :
    ((p.start = .pnone ∨ p.endc = .pnone) →
      (p.start = .pnone ∨ p.start.isFloat = true) →
      (p.endc = .pnone ∨ p.endc.isFloat = true) →
      downloadRun fuel p w fs = some (.error .typeError, [], fs)) ∧
    (∀ u evs fs', downloadRun fuel p w fs = some (.ok u, evs, fs') →
      ∃ a b, p.start = .pfloat a ∧ p.endc = .pfloat b) := by
  constructor
  · intro hnone hs he
    apply downloadRun_of_check_error
    rcases hs with hs | hs <;> rcases he with he | he <;>
      rcases hnone with hn | hn <;>
      first
        | (cases hps : p.start <;> cases hpe : p.endc <;>
            simp [hps, hpe, PyParam.isFloat] at hs he hn ⊢ <;>
            simp [startEndCheck, pyGt, PyParam.isFloat])
  · intro u evs fs' h
    cases hse : startEndCheck p.start p.endc with
    | error er =>
      rw [downloadRun_of_check_error fuel p w fs er hse] at h
      simp at h
    | ok v =>
      cases v
      obtain ⟨a, b, ha, hb, _⟩ := startEndCheck_ok _ _ hse
      exact ⟨a, b, ha, hb⟩

/-- Witness for `none_bounds_raise_typeerror`: the default arguments
(both bounds `None`) raise `TypeError` with no activity, and that
conclusion is drawn by applying the theorem. -/
theorem none_bounds_raise_typeerror_witness :
    downloadRun 1 ⟨Option.none, false, .pnone, .pnone, false, .ok, "original"⟩
        W0 ⟨[], []⟩ = some (.error .typeError, [], ⟨[], []⟩) :=
  (none_bounds_raise_typeerror 1
      ⟨Option.none, false, .pnone, .pnone, false, .ok, "original"⟩ W0
      ⟨[], []⟩).1 (Or.inl rfl) (Or.inl rfl) (Or.inl rfl)

/-- **C9.** For every call to `download`, the cover parameter `"512px"`
selects `manga.cover_art_512px` as the cover download source URL,
`"256px"` selects `manga.cover_art_256px`, and `"original"` selects
`manga.cover_art`, each selection independent of the others (they hold
simultaneously for every manga). -/
theorem cover_selection (m : Manga) :
    coverUrlOf "original" m = some m.cover_art ∧
    coverUrlOf "512px" m = some m.cover_art_512px ∧
    coverUrlOf "256px" m = some m.cover_art_256px := by
  refine ⟨rfl, rfl, rfl⟩

/-- Every event produced by the relationship loop is a network request. -/
theorem relEvents_no_output (rels : List RelKind) :
    ∀ e ∈ relEvents rels, Ev.isOutput e = false := by
  intro e he
  induction rels with
  | nil => simp [relEvents] at he
  | cons r rest ih =>
    unfold relEvents at he
    cases r <;> simp at he <;>
      first
        | (rcases he with he | he
           · rw [he]; rfl
           · exact ih (by simpa [relEvents] using he))
        | exact ih (by simpa [relEvents] using he)

/-- **C6.** For every call to `download` in which the manga cannot be
found or the selected language has no chapters, the typed error
(`InvalidManga` or `ChapterNotFound`) is raised during `fetch`, before
any output directory is created: the call returns that error, its trace
contains no filesystem output at all, and the filesystem is unchanged. -/
theorem hard_upstream_errors_before_mkdir (fuel : Nat) (p : Params)
    (w : World) (fs : FS)
    (hok : startEndCheck p.start p.endc = .ok ())
    (hc : p.cover ∈ validCoverTypes) (hl : p.lang = .ok)
    (hu : w.urlOk = true)
    (hbad : w.mangaFound = false ∨ w.manga.chapters = []) :
    ∃ er evs, downloadRun fuel p w fs = some (.error er, evs, fs) ∧
      (er = .invalidManga ∨ er = .chapterNotFound) ∧
      evs.countP Ev.isOutput = 0 := by
  unfold downloadRun
  rw [hok, if_pos hc]
  cases hf : w.mangaFound with
  | false =>
    refine ⟨.invalidManga, [Ev.net .manga], ?_, Or.inl rfl, by rfl⟩
    simp [fetchRun, hl, hu, hf]
  | true =>
    have hch : w.manga.chapters = [] := by
      rcases hbad with hb | hb
      · rw [hf] at hb; cases hb
      · exact hb
    refine ⟨.chapterNotFound,
      Ev.net .manga :: relEvents w.rels ++ [Ev.net .chapters], ?_, Or.inr rfl, ?_⟩
    · simp [fetchRun, hl, hu, hf, hch]
    · rw [List.countP_eq_zero]
      intro e he
      simp at he
      rcases he with he | he | he
      · rw [he]; decide
      · simp [relEvents_no_output w.rels e he]
      · rw [he]; decide

/-- Witness for `hard_upstream_errors_before_mkdir`: a manga that cannot
be found yields `InvalidManga` with no filesystem output. -/
theorem hard_upstream_errors_before_mkdir_witness :
    ∃ er evs, downloadRun 1
        ⟨Option.none, false, .pfloat 1, .pfloat 2, false, .ok, "original"⟩
        ⟨true, false, [], ⟨"T", "a", "b", "c", []⟩⟩ ⟨[], []⟩ =
        some (.error er, evs, ⟨[], []⟩) ∧
      (er = .invalidManga ∨ er = .chapterNotFound) ∧
      evs.countP Ev.isOutput = 0 :=
  hard_upstream_errors_before_mkdir 1
    ⟨Option.none, false, .pfloat 1, .pfloat 2, false, .ok, "original"⟩
    ⟨true, false, [], ⟨"T", "a", "b", "c", []⟩⟩ ⟨[], []⟩
    (by simp [startEndCheck, pyGt, PyParam.isFloat]) (by decide) rfl rfl
    (Or.inl rfl)

/-- **C8.** The CLI entry point returns exit code 1 when both chapter
bounds are given and `start_chapter > end_chapter`, with this pre-flight
check performed before login, proxy setup, or any download work (the
trace of the failing run contains only handler registration, argument
parsing and logging setup); when the check passes, the run returns exit
code 0. -/
theorem cli_exit_codes (a b : ℚ) :
    (b < a →
      cliMain (some a) (some b) =
        (1, [.registerHandler, .parseArgs, .setupLogging]) ∧
      ∀ e ∈ (cliMain (some a) (some b)).2,
        e ≠ CliEv.setupProxy ∧ e ≠ CliEv.login ∧ e ≠ CliEv.downloadCall) ∧
    (¬ b < a → (cliMain (some a) (some b)).1 = 0) ∧
    (∀ so : Option ℚ, (cliMain so Option.none).1 = 0 ∧
      (cliMain Option.none so).1 = 0) := by
  refine ⟨fun hlt => ?_, fun hge => ?_, fun so => ?_⟩
  · have h : cliMain (some a) (some b) =
        (1, [.registerHandler, .parseArgs, .setupLogging]) := by
      simp [cliMain, hlt]
    refine ⟨h, ?_⟩
    rw [h]
    intro e he
    simp at he
    rcases he with he | he | he <;> rw [he] <;> exact ⟨by decide, by decide, by decide⟩
  · simp [cliMain, hge]
  · cases so <;> simp [cliMain]

/-- Witness for `cli_exit_codes`: `start=5, end=1` exits with code 1
before proxy/login/download; `start=1, end=5` exits with code 0. -/
theorem cli_exit_codes_witness :
    cliMain (some (5 : ℚ)) (some 1) =
      (1, [.registerHandler, .parseArgs, .setupLogging]) ∧
    (cliMain (some (1 : ℚ)) (some 5)).1 = 0 :=
  ⟨((cli_exit_codes 5 1).1 (by norm_num)).1,
   (cli_exit_codes 1 5).2.1 (by norm_num)⟩

/-! ## Second-run idempotence (claim C2) -/

theorem mem_insertPath_of_mem (p q : FPath) (ps : List FPath) (h : q ∈ ps) :
    q ∈ insertPath p ps := by
  unfold insertPath
  split
  · exact h
  · exact List.mem_cons_of_mem p h

theorem self_mem_insertPath (p : FPath) (ps : List FPath) :
    p ∈ insertPath p ps := by
  unfold insertPath
  split
  · assumption
  · exact List.mem_cons_self p ps

/-- A pass never removes files. -/
theorem runPass_subset (cdir : FPath) (sc : Nat → Bool) (replace : Bool)
    (pages : List String) :
    ∀ (i : Nat) (files : List FPath) (q : FPath), q ∈ files →
      q ∈ (runPass cdir sc replace pages i files).1 := by
  induction pages with
  | nil =>
    intro i files q hq
    simpa [runPass] using hq
  | cons f rest ih =>
    intro i files q hq
    unfold runPass
    by_cases h1 : cdir ++ [f] ∈ files ∧ replace = false
    · rw [if_pos h1]
      exact ih _ _ q hq
    · rw [if_neg h1]
      by_cases h2 : sc i = true
      · rw [if_pos h2]
        exact ih _ _ q (mem_insertPath_of_mem _ _ _ hq)
      · rw [if_neg h2]
        exact hq

/-- After an error-free pass, every page file of the chapter is on disk. -/
theorem runPass_complete (cdir : FPath) (sc : Nat → Bool) (replace : Bool)
    (pages : List String) :
    ∀ (i : Nat) (files : List FPath),
      (runPass cdir sc replace pages i files).2.2 = false →
      ∀ f ∈ pages, cdir ++ [f] ∈ (runPass cdir sc replace pages i files).1 := by
  induction pages with
  | nil =>
    intro i files _ f hf
    simp at hf
  | cons f0 rest ih =>
    intro i files herr f hf
    unfold runPass at herr ⊢
    by_cases h1 : cdir ++ [f0] ∈ files ∧ replace = false
    · rw [if_pos h1] at herr ⊢
      rcases List.mem_cons.mp hf with hf | hf
      · subst hf
        exact runPass_subset _ _ _ _ _ _ _ h1.1
      · exact ih _ _ herr f hf
    · rw [if_neg h1] at herr ⊢
      by_cases h2 : sc i = true
      · rw [if_pos h2] at herr ⊢
        dsimp only at herr ⊢
        rcases List.mem_cons.mp hf with hf | hf
        · subst hf
          exact runPass_subset _ _ _ _ _ _ _ (self_mem_insertPath _ _)
        · exact ih _ _ herr f hf
      · rw [if_neg h2] at herr
        simp at herr

/-- With `replace=False`, a pass over pages that are all already on disk
skips every page: no events, no error, files unchanged. -/
theorem runPass_skip (cdir : FPath) (sc : Nat → Bool) (pages : List String) :
    ∀ (i : Nat) (files : List FPath),
      (∀ f ∈ pages, cdir ++ [f] ∈ files) →
      runPass cdir sc false pages i files = (files, [], false) := by
  induction pages with
  | nil =>
    intro i files _
    rfl
  | cons f0 rest ih =>
    intro i files hall
    unfold runPass
    rw [if_pos ⟨hall f0 (List.mem_cons_self _ _), rfl⟩]
    exact ih _ _ fun f hf => hall f (List.mem_cons_of_mem _ hf)

/-- A completed chapter loop only grows the file set, and ends with every
page of the chapter on disk. -/
theorem chapterRun_post (cdir : FPath) (pages : List String)
    (sc : Nat → Nat → Bool) (replace : Bool) :
    ∀ (fuel g : Nat) (files files' : List FPath) (evs : List Ev) (gf : Nat),
      chapterRun cdir pages sc replace fuel g files = some (files', evs, gf) →
      (∀ q ∈ files, q ∈ files') ∧ (∀ f ∈ pages, cdir ++ [f] ∈ files') := by
  intro fuel
  induction fuel with
  | zero =>
    intro g files files' evs gf h
    simp [chapterRun] at h
  | succ fuel ih =>
    intro g files files' evs gf h
    unfold chapterRun at h
    by_cases herr : (runPass cdir (sc g) replace pages 0 files).2.2 = true
    · rw [if_pos herr] at h
      cases hrec : chapterRun cdir pages sc replace fuel (g + 1)
          (runPass cdir (sc g) replace pages 0 files).1 with
      | none =>
        rw [hrec] at h
        cases h
      | some r =>
        obtain ⟨f1, evs1, gf1⟩ := r
        rw [hrec] at h
        simp only [Option.some.injEq, Prod.mk.injEq] at h
        obtain ⟨hf, -, -⟩ := h
        have hpost := ih (g + 1) _ _ _ _ hrec
        rw [hf] at hpost
        exact ⟨fun q hq => hpost.1 q (runPass_subset _ _ _ _ _ _ q hq), hpost.2⟩
    · rw [if_neg herr] at h
      simp only [Option.some.injEq, Prod.mk.injEq] at h
      obtain ⟨hf, -, -⟩ := h
      rw [← hf]
      refine ⟨fun q hq => runPass_subset _ _ _ _ _ _ q hq, ?_⟩
      exact runPass_complete _ _ _ _ _ _ (Bool.not_eq_true _ ▸ herr)

/-- With `replace=False` and every page already on disk, the chapter loop
finishes in one error-free pass with no events. -/
theorem chapterRun_skip (cdir : FPath) (pages : List String)
    (sc : Nat → Nat → Bool) (fuel g : Nat) (files : List FPath)
    (hfuel : 1 ≤ fuel) (hall : ∀ f ∈ pages, cdir ++ [f] ∈ files) :
    chapterRun cdir pages sc false fuel g files = some (files, [], g) := by
  cases fuel with
  | zero => exact absurd hfuel (by omega)
  | succ fuel =>
    unfold chapterRun
    rw [runPass_skip cdir (sc g) pages 0 files hall]
    simp

/-- A completed chapter (driver) only grows the file set and ends with
every page of the chapter on disk. -/
theorem chapterDriver_post (fuel : Nat) (cdir : FPath) (pages : List String)
    (sc : Nat → Nat → Bool) (replace : Bool) (fs : FS) (fs' : FS)
    (evs : List Ev) (g : Nat)
    (h : chapterDriver fuel cdir pages sc replace fs = some (fs', evs, g)) :
    (∀ q ∈ fs.files, q ∈ fs'.files) ∧ (∀ f ∈ pages, cdir ++ [f] ∈ fs'.files) := by
  unfold chapterDriver at h
  cases hcr : chapterRun cdir pages sc replace fuel 1 fs.files with
  | none =>
    rw [hcr] at h
    cases h
  | some r =>
    obtain ⟨files', evs', g'⟩ := r
    rw [hcr] at h
    dsimp only at h
    have hpost := chapterRun_post cdir pages sc replace fuel 1 fs.files _ _ _ hcr
    by_cases hd : cdir ∈ fs.dirs
    · rw [if_pos hd] at h
      simp only [Option.some.injEq, Prod.mk.injEq] at h
      obtain ⟨hfs, -, -⟩ := h
      rw [← hfs]
      exact hpost
    · rw [if_neg hd] at h
      simp only [Option.some.injEq, Prod.mk.injEq] at h
      obtain ⟨hfs, -, -⟩ := h
      rw [← hfs]
      exact hpost

/-- With `replace=False` and every page of the chapter on disk, the
chapter driver produces no page transfers and leaves the files unchanged. -/
theorem chapterDriver_skip (fuel : Nat) (cdir : FPath) (pages : List String)
    (sc : Nat → Nat → Bool) (fs : FS) (hfuel : 1 ≤ fuel)
    (hall : ∀ f ∈ pages, cdir ++ [f] ∈ fs.files) :
    ∃ fs' evs g, chapterDriver fuel cdir pages sc false fs = some (fs', evs, g) ∧
      fs'.files = fs.files ∧ evs.countP Ev.isPageTransfer = 0 := by
  unfold chapterDriver
  rw [chapterRun_skip cdir pages sc fuel 1 fs.files hfuel hall]
  dsimp only
  by_cases hd : cdir ∈ fs.dirs
  · rw [if_pos hd]
    exact ⟨_, _, _, rfl, rfl, rfl⟩
  · rw [if_neg hd]
    exact ⟨_, _, _, rfl, rfl, rfl⟩

/-- A completed chapter loop over a chapter list grows the file set and
ends with every page of every listed chapter on disk. -/
theorem chaptersRun_post (fuel : Nat) (base : FPath) (replace : Bool) :
    ∀ (chs : List ChEntry) (fs fs' : FS) (evs : List Ev),
      chaptersRun fuel base replace chs fs = some (fs', evs) →
      (∀ q ∈ fs.files, q ∈ fs'.files) ∧
      ∀ ch ∈ chs, ∀ f ∈ ch.pages,
        (base ++ [chapter_folder ch.vol ch.chap]) ++ [f] ∈ fs'.files := by
  intro chs
  induction chs with
  | nil =>
    intro fs fs' evs h
    simp only [chaptersRun, Option.some.injEq, Prod.mk.injEq] at h
    obtain ⟨hfs, -⟩ := h
    rw [← hfs]
    exact ⟨fun q hq => hq, by simp⟩
  | cons ch rest ih =>
    intro fs fs' evs h
    unfold chaptersRun at h
    cases hd : chapterDriver fuel (base ++ [chapter_folder ch.vol ch.chap])
        ch.pages ch.succ replace fs with
    | none =>
      rw [hd] at h
      cases h
    | some r =>
      obtain ⟨fs1, evs1, g1⟩ := r
      rw [hd] at h
      dsimp only at h
      cases hrest : chaptersRun fuel base replace rest fs1 with
      | none =>
        rw [hrest] at h
        cases h
      | some r2 =>
        obtain ⟨fs2, evs2⟩ := r2
        rw [hrest] at h
        simp only [Option.some.injEq, Prod.mk.injEq] at h
        obtain ⟨hfs, -⟩ := h
        have hd' := chapterDriver_post _ _ _ _ _ _ _ _ _ hd
        have hr' := ih fs1 fs2 evs2 hrest
        rw [hfs] at hr'
        refine ⟨fun q hq => hr'.1 q (hd'.1 q hq), ?_⟩
        intro c hc f hf
        rcases List.mem_cons.mp hc with hc | hc
        · subst hc
          exact hr'.1 _ (hd'.2 f hf)
        · exact hr'.2 c hc f hf

/-- With `replace=False` and every page of every chapter on disk, the
chapter loop performs zero page transfers and leaves the files unchanged. -/
theorem chaptersRun_skip (fuel : Nat) (base : FPath) :
    ∀ (chs : List ChEntry) (fs : FS), 1 ≤ fuel →
      (∀ ch ∈ chs, ∀ f ∈ ch.pages,
        (base ++ [chapter_folder ch.vol ch.chap]) ++ [f] ∈ fs.files) →
      ∃ fs' evs, chaptersRun fuel base false chs fs = some (fs', evs) ∧
        fs'.files = fs.files ∧ evs.countP Ev.isPageTransfer = 0 := by
  intro chs
  induction chs with
  | nil =>
    intro fs _ _
    exact ⟨fs, [], rfl, rfl, rfl⟩
  | cons ch rest ih =>
    intro fs hfuel hall
    obtain ⟨fs1, evs1, g1, hd, hfiles1, hcount1⟩ :=
      chapterDriver_skip fuel (base ++ [chapter_folder ch.vol ch.chap]) ch.pages
        ch.succ fs hfuel (fun f hf => hall ch (List.mem_cons_self _ _) f hf)
    obtain ⟨fs2, evs2, hrest, hfiles2, hcount2⟩ := ih fs1 hfuel
      (fun c hc f hf => hfiles1 ▸ hall c (List.mem_cons_of_mem _ hc) f hf)
    refine ⟨fs2, evs1 ++ evs2, ?_, by rw [hfiles2, hfiles1], ?_⟩
    · unfold chaptersRun
      rw [hd]
      dsimp only
      rw [hrest]
    · rw [List.countP_append, hcount1, hcount2]

/-- The events of a relationship loop are all network requests. -/
theorem relEvents_shape (rels : List RelKind) :
    ∀ e ∈ relEvents rels, ∃ k, e = Ev.net k := by
  intro e he
  induction rels with
  | nil => simp [relEvents] at he
  | cons r rest ih =>
    unfold relEvents at he
    cases r <;> simp at he <;>
      first
        | (rcases he with he | he
           · exact ⟨_, he⟩
           · exact ih (by simpa [relEvents] using he))
        | exact ih (by simpa [relEvents] using he)

/-- A successful `fetch` emits exactly the manga request, the relationship
requests and the chapter-list request. -/
theorem fetchRun_ok_shape (lang : LangParam) (w : World) (m : Manga)
    (fevs : List Ev) (h : fetchRun lang w = (.ok m, fevs)) :
    fevs = Ev.net .manga :: relEvents w.rels ++ [Ev.net .chapters] := by
  cases lang <;> simp [fetchRun] at h
  case ok =>
    by_cases hu : w.urlOk = true
    · rw [if_pos hu] at h
      by_cases hf : w.mangaFound = true
      · rw [if_pos hf] at h
        by_cases hch : w.manga.chapters.isEmpty = true
        · rw [if_pos hch] at h
          simp at h
        · rw [if_neg hch] at h
          simp at h
          exact h.2.symm
      · rw [if_neg hf] at h
        simp at h
    · rw [if_neg hu] at h
      simp at h

/-- Unfolding of `downloadRun` once validation and `fetch` have
succeeded. -/
theorem downloadRun_valid_eq (fuel : Nat) (p : Params) (w : World) (fs : FS)
    (m : Manga) (fevs : List Ev) (curl : String)
    (hse : startEndCheck p.start p.endc = .ok ())
    (hc : p.cover ∈ validCoverTypes)
    (hfr : fetchRun p.lang w = (.ok m, fevs))
    (hcu : coverUrlOf p.cover m = some curl) :
    downloadRun fuel p w fs =
      match chaptersRun fuel (dlBase p m) p.replace
          (selectedChapters p.start p.endc p.noOneshot m.chapters)
          ⟨insertPath (dlBase p m ++ ["details.json"])
             (insertPath (dlBase p m ++ ["cover.jpg"]) fs.files),
           insertPath (dlBase p m) fs.dirs⟩ with
      | none => none
      | some (fs', evs3) =>
        some (.ok (),
          (fevs ++
            [Ev.mkdir (dlBase p m),
             Ev.coverTransfer curl (dlBase p m ++ ["cover.jpg"]),
             Ev.writeDetails (dlBase p m ++ ["details.json"])]) ++ evs3,
          fs') := by
  unfold downloadRun
  rw [hse]
  dsimp only
  rw [if_pos hc, hfr]
  dsimp only
  rw [hcu]

/-- **C2, counterexample.** Running the pipeline a second time on the same
target with `replace=False` does NOT make every per-file download call
return early: the destination `cover.jpg` exists after the first run, yet
the second run still performs a (cover) transfer, because `main.py` line
210 downloads the cover with `replace=True`. -/
theorem second_run_retransfers_cover :
    ∃ r1 r2,
      downloadRun 2 ⟨Option.none, false, .pfloat 1, .pfloat 2, false, .ok,
          "original"⟩
        ⟨true, true, [], ⟨"T", "u-orig", "u-512", "u-256",
          [⟨.pstr "1", "1", some 1, ["01.png"], fun _ _ => true⟩]⟩⟩
        ⟨[], []⟩ = some r1 ∧
      downloadRun 2 ⟨Option.none, false, .pfloat 1, .pfloat 2, false, .ok,
          "original"⟩
        ⟨true, true, [], ⟨"T", "u-orig", "u-512", "u-256",
          [⟨.pstr "1", "1", some 1, ["01.png"], fun _ _ => true⟩]⟩⟩
        r1.2.2 = some r2 ∧
      r1.1 = .ok () ∧ r2.1 = .ok () ∧
      ["T", "cover.jpg"] ∈ r1.2.2.files ∧
      r2.2.1.countP Ev.isTransfer ≠ 0 := by
  refine ⟨_, _, rfl, rfl, rfl, rfl, ?_, ?_⟩ <;> decide

/-- **C2 (amended).** For every manga target, running the download
pipeline a second time on the same target with `replace=False` performs
zero chapter-page re-transfers: every `ChapterPageDownloader` call on the
second run returns early because the destination file already exists. The
cover, downloaded with `replace=True`, is re-transferred on every run
(and `details.json` is rewritten), so the second run's trace is free of
page transfers but not of all transfers. -/
theorem second_run_no_page_retransfers (fuel fuel2 : Nat) (p : Params)
    (w : World) (fs0 fs1 : FS) (evs1 : List Ev)
    (hrep : p.replace = false) (hfuel2 : 1 ≤ fuel2)
    (h1 : downloadRun fuel p w fs0 = some (.ok (), evs1, fs1)) :
    ∃ evs2 fs2, downloadRun fuel2 p w fs1 = some (.ok (), evs2, fs2) ∧
      evs2.countP Ev.isPageTransfer = 0 := by
  unfold downloadRun at h1
  cases hse : startEndCheck p.start p.endc with
  | error er =>
    rw [hse] at h1
    simp at h1
  | ok v =>
    cases v
    rw [hse] at h1
    dsimp only at h1
    by_cases hc : p.cover ∈ validCoverTypes
    · rw [if_pos hc] at h1
      cases hfr : fetchRun p.lang w with
      | mk fr fevs =>
        rw [hfr] at h1
        cases fr with
        | error er =>
          dsimp only at h1
          simp at h1
        | ok m =>
          dsimp only at h1
          cases hcu : coverUrlOf p.cover m with
          | none =>
            rw [hcu] at h1
            simp at h1
          | some curl =>
            rw [hcu] at h1
            dsimp only at h1
            cases hcr : chaptersRun fuel (dlBase p m) p.replace
                (selectedChapters p.start p.endc p.noOneshot m.chapters)
                ⟨insertPath (dlBase p m ++ ["details.json"])
                   (insertPath (dlBase p m ++ ["cover.jpg"]) fs0.files),
                 insertPath (dlBase p m) fs0.dirs⟩ with
            | none =>
              rw [hcr] at h1
              cases h1
            | some r =>
              obtain ⟨fsX, evs3⟩ := r
              rw [hcr] at h1
              dsimp only at h1
              simp only [Option.some.injEq, Prod.mk.injEq] at h1
              obtain ⟨-, -, hfsX⟩ := h1
              rw [hrep] at hcr
              have hpost := chaptersRun_post fuel _ false _ _ _ _ hcr
              rw [hfsX] at hpost
              -- second run: every selected page is already on disk
              obtain ⟨fs2', evs3', hrun2, -, hcount⟩ :=
                chaptersRun_skip fuel2 (dlBase p m)
                  (selectedChapters p.start p.endc p.noOneshot m.chapters)
                  ⟨insertPath (dlBase p m ++ ["details.json"])
                     (insertPath (dlBase p m ++ ["cover.jpg"]) fs1.files),
                   insertPath (dlBase p m) fs1.dirs⟩
                  hfuel2
                  (fun c hc' f hf =>
                    mem_insertPath_of_mem _ _ _
                      (mem_insertPath_of_mem _ _ _ (hpost.2 c hc' f hf)))
              rw [downloadRun_valid_eq fuel2 p w fs1 m fevs curl hse hc hfr hcu,
                hrep, hrun2]
              dsimp only
              refine ⟨_, fs2', rfl, ?_⟩
              rw [List.countP_append, hcount, Nat.add_zero,
                fetchRun_ok_shape p.lang w m fevs hfr]
              have hrel : (relEvents w.rels).countP Ev.isPageTransfer = 0 := by
                rw [List.countP_eq_zero]
                intro e he
                obtain ⟨k, hk⟩ := relEvents_shape w.rels e he
                rw [hk]
                simp [Ev.isPageTransfer]
              simp [List.countP_append, List.countP_cons, Ev.isPageTransfer, hrel]
    · rw [if_neg hc] at h1
      simp at h1

/-- A one-chapter, one-page sample target for the second-run witness. -/
def Pc : Params := ⟨Option.none, false, .pfloat 1, .pfloat 2, false, .ok, "original"⟩

/-- The sample world of `Pc`. -/
def Wc : World := ⟨true, true, [], ⟨"T", "u-orig", "u-512", "u-256",
  [⟨.pstr "1", "1", some 1, ["01.png"], fun _ _ => true⟩]⟩⟩

/-- The filesystem left by the first run of `Pc` against `Wc`. -/
def FS1c : FS :=
  ⟨[["T", "Volume. 1 Chapter. 1", "01.png"], ["T", "details.json"],
    ["T", "cover.jpg"]],
   [["T", "Volume. 1 Chapter. 1"], ["T"]]⟩

/-- The event trace of the first run of `Pc` against `Wc`. -/
def EVS1c : List Ev :=
  [.net .manga, .net .chapters, .mkdir ["T"],
   .coverTransfer "u-orig" ["T", "cover.jpg"],
   .writeDetails ["T", "details.json"], .net .imageFetch,
   .mkdir ["T", "Volume. 1 Chapter. 1"],
   .pageTransfer ["T", "Volume. 1 Chapter. 1", "01.png"]]

/-- Witness for `second_run_no_page_retransfers`: the second run over the
sample target succeeds with zero page transfers. -/
theorem second_run_no_page_retransfers_witness :
    ∃ evs2 fs2, downloadRun 1 Pc Wc FS1c = some (.ok (), evs2, fs2) ∧
      evs2.countP Ev.isPageTransfer = 0 :=
  second_run_no_page_retransfers 2 1 Pc Wc ⟨[], []⟩ FS1c EVS1c rfl
    (by decide) rfl

/-! ## Retry convergence (claims C3, C4) -/

theorem mem_insertPath_iff (p q : FPath) (ps : List FPath) :
    q ∈ insertPath p ps ↔ q = p ∨ q ∈ ps := by
  unfold insertPath
  split
  · rename_i hmem
    constructor
    · exact Or.inr
    · rintro (rfl | h)
      · exact hmem
      · exact h
  · exact List.mem_cons

/-- Every event a single pass emits is a page transfer. -/
theorem runPass_events (cdir : FPath) (sc : Nat → Bool) (replace : Bool)
    (pages : List String) :
    ∀ (i : Nat) (files : List FPath) (e : Ev),
      e ∈ (runPass cdir sc replace pages i files).2.1 →
      ∃ p, e = Ev.pageTransfer p := by
  induction pages with
  | nil =>
    intro i files e he
    simp [runPass] at he
  | cons f rest ih =>
    intro i files e he
    unfold runPass at he
    by_cases h1 : cdir ++ [f] ∈ files ∧ replace = false
    · rw [if_pos h1] at he
      exact ih _ _ e he
    · rw [if_neg h1] at he
      by_cases h2 : sc i = true
      · rw [if_pos h2] at he
        dsimp only at he
        rcases List.mem_cons.mp he with he | he
        · exact ⟨_, he⟩
        · exact ih _ _ e he
      · rw [if_neg h2] at he
        simp at he

/-- A pass emits no `images.fetch()` events of its own. -/
theorem runPass_no_fetch (cdir : FPath) (sc : Nat → Bool) (replace : Bool)
    (pages : List String) (i : Nat) (files : List FPath) :
    (runPass cdir sc replace pages i files).2.1.countP Ev.isImageFetch = 0 := by
  rw [List.countP_eq_zero]
  intro e he
  obtain ⟨p, hp⟩ := runPass_events cdir sc replace pages i files e he
  rw [hp]
  simp [Ev.isImageFetch]

/-- A pass whose oracle always succeeds is error-free and transfers each
missing page exactly once (already-present pages are skipped). -/
theorem runPass_success_count (cdir : FPath) (sc : Nat → Bool)
    (pages : List String) (hsc : ∀ i, sc i = true) :
    ∀ (i : Nat) (files : List FPath),
      (runPass cdir sc false pages i files).2.2 = false ∧
      ∀ p : FPath,
        (runPass cdir sc false pages i files).2.1.countP
            (fun e => decide (e = Ev.pageTransfer p)) =
          if p ∈ pages.map (fun f => cdir ++ [f]) ∧ p ∉ files then 1 else 0 := by
  induction pages with
  | nil =>
    intro i files
    refine ⟨rfl, fun p => ?_⟩
    simp [runPass]
  | cons f rest ih =>
    intro i files
    unfold runPass
    by_cases hm : cdir ++ [f] ∈ files
    · rw [if_pos ⟨hm, rfl⟩]
      refine ⟨(ih (i + 1) files).1, fun p => ?_⟩
      rw [(ih (i + 1) files).2 p]
      by_cases hp : p = cdir ++ [f]
      · subst hp
        have hA : ¬(cdir ++ [f] ∈ rest.map (fun f => cdir ++ [f]) ∧
            cdir ++ [f] ∉ files) := fun hand => hand.2 hm
        have hC : ¬(cdir ++ [f] ∈ (f :: rest).map (fun f => cdir ++ [f]) ∧
            cdir ++ [f] ∉ files) := fun hand => hand.2 hm
        rw [if_neg hA, if_neg hC]
      · by_cases hnf : p ∈ files
        · have hA : ¬(p ∈ rest.map (fun f => cdir ++ [f]) ∧ p ∉ files) :=
            fun hand => hand.2 hnf
          have hC : ¬(p ∈ (f :: rest).map (fun f => cdir ++ [f]) ∧
              p ∉ files) := fun hand => hand.2 hnf
          rw [if_neg hA, if_neg hC]
        · by_cases hr : p ∈ rest.map (fun f => cdir ++ [f])
          · have hA : p ∈ rest.map (fun f => cdir ++ [f]) ∧ p ∉ files :=
              ⟨hr, hnf⟩
            have hC : p ∈ (f :: rest).map (fun f => cdir ++ [f]) ∧
                p ∉ files :=
              ⟨by rw [List.map_cons]; exact List.mem_cons_of_mem _ hr, hnf⟩
            rw [if_pos hA, if_pos hC]
          · have hA : ¬(p ∈ rest.map (fun f => cdir ++ [f]) ∧ p ∉ files) :=
              fun hand => hr hand.1
            have hC : ¬(p ∈ (f :: rest).map (fun f => cdir ++ [f]) ∧
                p ∉ files) := by
              rintro ⟨hin, -⟩
              rw [List.map_cons, List.mem_cons] at hin
              exact hr (hin.resolve_left hp)
            rw [if_neg hA, if_neg hC]
    · rw [if_neg (fun hand => hm hand.1), if_pos (hsc i)]
      dsimp only
      refine ⟨(ih (i + 1) (insertPath (cdir ++ [f]) files)).1, fun p => ?_⟩
      rw [List.countP_cons,
        (ih (i + 1) (insertPath (cdir ++ [f]) files)).2 p]
      by_cases hp : p = cdir ++ [f]
      · subst hp
        have hA : ¬(cdir ++ [f] ∈ rest.map (fun f => cdir ++ [f]) ∧
            cdir ++ [f] ∉ insertPath (cdir ++ [f]) files) :=
          fun hand => hand.2 (self_mem_insertPath _ _)
        have hC : cdir ++ [f] ∈ (f :: rest).map (fun f => cdir ++ [f]) ∧
            cdir ++ [f] ∉ files :=
          ⟨by rw [List.map_cons]; exact List.mem_cons_self _ _, hm⟩
        rw [if_neg hA, if_pos hC]
        simp
      · have hB : (decide (Ev.pageTransfer (cdir ++ [f]) =
            Ev.pageTransfer p) : Bool) = false := by
          rw [decide_eq_false_iff_not]
          intro h
          exact hp (Ev.pageTransfer.inj h).symm
        rw [hB, show (if (false = true) then (1 : Nat) else 0) = 0 from rfl,
          Nat.add_zero]
        by_cases hnf : p ∈ files
        · have hA : ¬(p ∈ rest.map (fun f => cdir ++ [f]) ∧
              p ∉ insertPath (cdir ++ [f]) files) :=
            fun hand => hand.2 (mem_insertPath_of_mem _ _ _ hnf)
          have hC : ¬(p ∈ (f :: rest).map (fun f => cdir ++ [f]) ∧
              p ∉ files) := fun hand => hand.2 hnf
          rw [if_neg hA, if_neg hC]
        · by_cases hr : p ∈ rest.map (fun f => cdir ++ [f])
          · have hA : p ∈ rest.map (fun f => cdir ++ [f]) ∧
                p ∉ insertPath (cdir ++ [f]) files :=
              ⟨hr, fun hmem =>
                ((mem_insertPath_iff _ _ _).mp hmem).elim hp hnf⟩
            have hC : p ∈ (f :: rest).map (fun f => cdir ++ [f]) ∧
                p ∉ files :=
              ⟨by rw [List.map_cons]; exact List.mem_cons_of_mem _ hr, hnf⟩
            rw [if_pos hA, if_pos hC]
          · have hA : ¬(p ∈ rest.map (fun f => cdir ++ [f]) ∧
                p ∉ insertPath (cdir ++ [f]) files) :=
              fun hand => hr hand.1
            have hC : ¬(p ∈ (f :: rest).map (fun f => cdir ++ [f]) ∧
                p ∉ files) := by
              rintro ⟨hin, -⟩
              rw [List.map_cons, List.mem_cons] at hin
              exact hr (hin.resolve_left hp)
            rw [if_neg hA, if_neg hC]

/-- A pass whose oracle fails on the first page, when that page is not yet
on disk, fails immediately: no events, files unchanged. -/
theorem runPass_first_fail (cdir : FPath) (sc : Nat → Bool) (f0 : String)
    (rest : List String) (i : Nat) (files : List FPath)
    (hsc : sc i = false) (hmem : cdir ++ [f0] ∉ files) :
    runPass cdir sc false (f0 :: rest) i files = (files, [], true) := by
  unfold runPass
  rw [if_neg (fun hand => hmem hand.1), if_neg (by simp [hsc])]

/-- One-step unfolding of the retry loop. -/
theorem chapterRun_succ (cdir : FPath) (pages : List String)
    (sc : Nat → Nat → Bool) (replace : Bool) (fuel g : Nat)
    (files : List FPath) :
    chapterRun cdir pages sc replace (fuel + 1) g files =
      if (runPass cdir (sc g) replace pages 0 files).2.2 then
        match chapterRun cdir pages sc replace fuel (g + 1)
            (runPass cdir (sc g) replace pages 0 files).1 with
        | none => none
        | some (f', evs', gf) =>
            some (f', (runPass cdir (sc g) replace pages 0 files).2.1 ++
              Ev.net .imageFetch :: evs', gf)
      else some ((runPass cdir (sc g) replace pages 0 files).1,
        (runPass cdir (sc g) replace pages 0 files).2.1, g) := rfl

/-- Iterating `d` failing passes from generation `g` prepends `d` fetch
events and leaves the rest of the loop unchanged. -/
theorem chapterRun_broken (cdir : FPath) (f0 : String) (rest : List String)
    (sc : Nat → Nat → Bool) :
    ∀ (d k g : Nat) (files : List FPath),
      (∀ e, g ≤ e → e < g + d → sc e 0 = false) →
      cdir ++ [f0] ∉ files →
      chapterRun cdir (f0 :: rest) sc false (d + k) g files =
        (chapterRun cdir (f0 :: rest) sc false k (g + d) files).map
          (fun r => (r.1, List.replicate d (Ev.net .imageFetch) ++ r.2.1, r.2.2)) := by
  intro d
  induction d with
  | zero =>
    intro k g files _ _
    rw [Nat.zero_add, Nat.add_zero]
    cases h : chapterRun cdir (f0 :: rest) sc false k g files with
    | none => rfl
    | some r => simp
  | succ d ihd =>
    intro k g files hfail hmem
    have hstep : runPass cdir (sc g) false (f0 :: rest) 0 files =
        (files, [], true) :=
      runPass_first_fail cdir (sc g) f0 rest 0 files
        (hfail g (le_refl g) (by omega)) hmem
    have hful : d + 1 + k = (d + k) + 1 := by omega
    rw [hful, chapterRun_succ, hstep]
    dsimp only
    rw [ihd k (g + 1) files (fun e he1 he2 => hfail e (by omega) (by omega)) hmem]
    have harith : g + 1 + d = g + (d + 1) := by omega
    rw [harith]
    cases chapterRun cdir (f0 :: rest) sc false k (g + (d + 1)) files with
    | none => rfl
    | some r =>
      simp [List.replicate_succ]

/-- **C4.** For every chapter whose image-set fetch yields working URLs
only after `N` failed download passes (the transfer oracle succeeds
exactly at generations above `N`), the orchestrator completes that
chapter having called the image set's `fetch()` exactly `N+1` times (one
initial fetch before the page loop plus one per failed pass), and
downloads each page exactly once — it does not re-download pages that
already succeeded. -/
theorem retry_convergence (N : Nat) (cdir : FPath) (pages : List String)
    (hne : pages ≠ []) :
    ∃ fs' evs,
      chapterDriver (N + 1) cdir pages (fun g _ => decide (N < g)) false
          ⟨[], []⟩ = some (fs', evs, N + 1) ∧
      evs.countP Ev.isImageFetch = N + 1 ∧
      ∀ f ∈ pages, evs.countP
        (fun e => decide (e = Ev.pageTransfer (cdir ++ [f]))) = 1 := by
  cases pages with
  | nil => exact absurd rfl hne
  | cons f0 rest =>
    have hlast := runPass_success_count cdir (fun _ => decide (N < N + 1))
      (f0 :: rest) (fun _ => by simp) 0 []
    have hone : chapterRun cdir (f0 :: rest) (fun g _ => decide (N < g)) false
        1 (1 + N) [] =
        some ((runPass cdir (fun _ => decide (N < N + 1)) false (f0 :: rest)
            0 []).1,
          (runPass cdir (fun _ => decide (N < N + 1)) false (f0 :: rest)
            0 []).2.1, 1 + N) := by
      unfold chapterRun
      have h1N : (1 + N) = N + 1 := by omega
      rw [h1N]
      rw [if_neg (by rw [hlast.1]; simp)]
    have hbroken := chapterRun_broken cdir f0 rest (fun g _ => decide (N < g))
      N 1 1 [] (fun e he1 he2 => by simp; omega) (by simp)
    rw [hone] at hbroken
    unfold chapterDriver
    have hN1 : N + 1 = N + 1 := rfl
    rw [hbroken]
    dsimp only [Option.map]
    rw [if_neg (by simp)]
    refine ⟨_, _, by rw [show 1 + N = N + 1 by omega], ?_, ?_⟩
    · rw [List.countP_cons, List.countP_cons, List.countP_append,
        runPass_no_fetch]
      have hrep : (List.replicate N (Ev.net NetKind.imageFetch)).countP
          Ev.isImageFetch = N := by
        rw [List.countP_eq_length_filter, List.filter_replicate]
        simp [Ev.isImageFetch]
      rw [hrep]
      simp [Ev.isImageFetch]
    · intro f hf
      rw [List.countP_cons, List.countP_cons, List.countP_append]
      have hrep0 : (List.replicate N (Ev.net NetKind.imageFetch)).countP
          (fun e => decide (e = Ev.pageTransfer (cdir ++ [f]))) = 0 := by
        rw [List.countP_eq_zero]
        intro e he
        rw [List.eq_of_mem_replicate he]
        simp
      rw [hrep0, hlast.2 (cdir ++ [f])]
      rw [if_pos ⟨List.mem_map_of_mem _ hf, by simp⟩]
      simp

/-- Witness for `retry_convergence`: two failed passes (`N = 2`) on a
one-page chapter finish after exactly 3 fetch calls with the page
downloaded once. -/
theorem retry_convergence_witness :
    ∃ fs' evs,
      chapterDriver 3 ["T", "c"] ["01.png"] (fun g _ => decide (2 < g)) false
          ⟨[], []⟩ = some (fs', evs, 3) ∧
      evs.countP Ev.isImageFetch = 3 ∧
      ∀ f ∈ ["01.png"], evs.countP
        (fun e => decide (e = Ev.pageTransfer (["T", "c"] ++ [f]))) = 1 :=
  retry_convergence 2 ["T", "c"] ["01.png"] (by simp)

/-- The filesystem state after `k` passes of the retry loop starting at
generation `g0`: pass `j` (counting from 0) runs at generation `g0 + j`
over the full page list, starting from the beginning. -/
def iterFailFS (cdir : FPath) (pages : List String) (sc : Nat → Nat → Bool)
    (replace : Bool) (g0 : Nat) (files : List FPath) : Nat → List FPath
  | 0 => files
  | k + 1 => (runPass cdir (sc (g0 + k)) replace pages 0
      (iterFailFS cdir pages sc replace g0 files k)).1

/-- Pass `k` of the retry loop (counting from 0 at generation `g0`) has no
failing page download. -/
def cleanAt (cdir : FPath) (pages : List String) (sc : Nat → Nat → Bool)
    (replace : Bool) (g0 : Nat) (files : List FPath) (k : Nat) : Prop :=
  (runPass cdir (sc (g0 + k)) replace pages 0
    (iterFailFS cdir pages sc replace g0 files k)).2.2 = false

theorem iterFailFS_shift (cdir : FPath) (pages : List String)
    (sc : Nat → Nat → Bool) (replace : Bool) (g : Nat) (files : List FPath) :
    ∀ k, iterFailFS cdir pages sc replace g files (k + 1) =
      iterFailFS cdir pages sc replace (g + 1)
        (runPass cdir (sc g) replace pages 0 files).1 k := by
  intro k
  induction k with
  | zero =>
    show (runPass cdir (sc (g + 0)) replace pages 0 files).1 = _
    rw [Nat.add_zero]
    rfl
  | succ k ihk =>
    show (runPass cdir (sc (g + (k + 1))) replace pages 0
        (iterFailFS cdir pages sc replace g files (k + 1))).1 = _
    rw [ihk, show g + (k + 1) = (g + 1) + k from by omega]
    rfl

theorem cleanAt_shift (cdir : FPath) (pages : List String)
    (sc : Nat → Nat → Bool) (replace : Bool) (g : Nat) (files : List FPath)
    (k : Nat) :
    cleanAt cdir pages sc replace g files (k + 1) ↔
      cleanAt cdir pages sc replace (g + 1)
        (runPass cdir (sc g) replace pages 0 files).1 k := by
  unfold cleanAt
  rw [iterFailFS_shift, show g + (k + 1) = (g + 1) + k from by omega]

/-- Soundness of the retry loop: a completed chapter corresponds to the
first error-free pass; the final generation counts one fetch per failed
pass, the events contain exactly that many fetches, and the files are
those accumulated by the passes. -/
theorem chapterRun_characterize (cdir : FPath) (pages : List String)
    (sc : Nat → Nat → Bool) (replace : Bool) :
    ∀ (fuel g : Nat) (files files' : List FPath) (evs : List Ev) (gf : Nat),
      chapterRun cdir pages sc replace fuel g files = some (files', evs, gf) →
      ∃ k, k < fuel ∧ cleanAt cdir pages sc replace g files k ∧
        (∀ j < k, ¬ cleanAt cdir pages sc replace g files j) ∧
        gf = g + k ∧
        files' = (runPass cdir (sc (g + k)) replace pages 0
          (iterFailFS cdir pages sc replace g files k)).1 ∧
        evs.countP Ev.isImageFetch = k := by
  intro fuel
  induction fuel with
  | zero =>
    intro g files files' evs gf h
    simp [chapterRun] at h
  | succ fuel ih =>
    intro g files files' evs gf h
    rw [chapterRun_succ] at h
    by_cases herr : (runPass cdir (sc g) replace pages 0 files).2.2 = true
    · rw [if_pos herr] at h
      cases hrec : chapterRun cdir pages sc replace fuel (g + 1)
          (runPass cdir (sc g) replace pages 0 files).1 with
      | none =>
        rw [hrec] at h
        cases h
      | some r =>
        obtain ⟨f1, evs1, gf1⟩ := r
        rw [hrec] at h
        simp only [Option.some.injEq, Prod.mk.injEq] at h
        obtain ⟨hf1, hevs, hgf⟩ := h
        obtain ⟨k, hk, hclean, hmin, hgf1, hfiles, hcount⟩ :=
          ih (g + 1) _ _ _ _ hrec
        refine ⟨k + 1, by omega, (cleanAt_shift _ _ _ _ _ _ _).mpr hclean,
          ?_, ?_, ?_, ?_⟩
        · intro j hj
          cases j with
          | zero =>
            intro hc
            unfold cleanAt iterFailFS at hc
            rw [Nat.add_zero] at hc
            rw [hc] at herr
            cases herr
          | succ j =>
            intro hc
            exact hmin j (by omega) ((cleanAt_shift _ _ _ _ _ _ _).mp hc)
        · rw [← hgf, hgf1]
          omega
        · rw [← hf1, hfiles, iterFailFS_shift,
            show g + (k + 1) = (g + 1) + k from by omega]
        · rw [← hevs, List.countP_append, List.countP_cons, runPass_no_fetch,
            hcount]
          simp [Ev.isImageFetch]
    · rw [if_neg herr] at h
      simp only [Option.some.injEq, Prod.mk.injEq] at h
      obtain ⟨hf, hevs, hgf⟩ := h
      refine ⟨0, by omega, ?_, by omega, by omega, ?_, ?_⟩
      · unfold cleanAt iterFailFS
        rw [Nat.add_zero]
        exact Bool.not_eq_true _ ▸ herr
      · rw [← hf]
        unfold iterFailFS
        rw [Nat.add_zero]
      · rw [← hevs, runPass_no_fetch]

/-- Completeness of the retry loop: an error-free pass within the fuel
bound makes the loop terminate. -/
theorem chapterRun_isSome_of_clean (cdir : FPath) (pages : List String)
    (sc : Nat → Nat → Bool) (replace : Bool) :
    ∀ (fuel g : Nat) (files : List FPath) (k : Nat), k < fuel →
      cleanAt cdir pages sc replace g files k →
      (chapterRun cdir pages sc replace fuel g files).isSome = true := by
  intro fuel
  induction fuel with
  | zero =>
    intro g files k hk
    omega
  | succ fuel ih =>
    intro g files k hk hclean
    rw [chapterRun_succ]
    by_cases herr : (runPass cdir (sc g) replace pages 0 files).2.2 = true
    · rw [if_pos herr]
      cases k with
      | zero =>
        unfold cleanAt iterFailFS at hclean
        rw [Nat.add_zero] at hclean
        rw [hclean] at herr
        cases herr
      | succ k =>
        have hclean' := (cleanAt_shift _ _ _ _ _ _ _).mp hclean
        have hrec := ih (g + 1)
          (runPass cdir (sc g) replace pages 0 files).1 k (by omega) hclean'
        cases hr : chapterRun cdir pages sc replace fuel (g + 1)
            (runPass cdir (sc g) replace pages 0 files).1 with
        | none =>
          rw [hr] at hrec
          simp at hrec
        | some r =>
          obtain ⟨f1, evs1, gf1⟩ := r
          rfl
    · rw [if_neg herr]
      rfl

/-- With a persistently failing page, the retry loop never terminates:
no amount of fuel suffices. -/
theorem chapterRun_unbounded (cdir : FPath) (p : String) :
    ∀ (fuel g : Nat),
      chapterRun cdir [p] (fun _ _ => false) false fuel g [] = none := by
  intro fuel
  induction fuel with
  | zero => intro g; rfl
  | succ fuel ih =>
    intro g
    rw [chapterRun_succ,
      runPass_first_fail cdir (fun _ => false) p [] 0 [] rfl (by simp)]
    dsimp only
    rw [ih (g + 1)]
    rfl

/-- **C3.** For every chapter, whenever any page download in a pass
reports failure, the orchestrator refetches the image set and restarts
that chapter's page loop from the beginning of the refreshed set (pass
`j` runs over the full page list at generation `g+j`, as `cleanAt` /
`iterFailFS` record); it advances to the next chapter only after a
complete pass in which no page download failed — the loop terminates
exactly when some pass within the fuel bound is error-free, terminating
at the first such pass with one fetch event per failed pass — and there
is no bound on the number of retry passes per chapter: against a
persistently failing page, no fuel bound makes the loop terminate. -/
theorem retry_loop_restarts (cdir : FPath) (pages : List String)
    (sc : Nat → Nat → Bool) (replace : Bool) (fuel g : Nat)
    (files : List FPath) :
    ((chapterRun cdir pages sc replace fuel g files).isSome = true ↔
      ∃ k < fuel, cleanAt cdir pages sc replace g files k) ∧
    (∀ files' evs gf,
      chapterRun cdir pages sc replace fuel g files = some (files', evs, gf) →
      ∃ k < fuel, cleanAt cdir pages sc replace g files k ∧
        (∀ j < k, ¬ cleanAt cdir pages sc replace g files j) ∧
        gf = g + k ∧ evs.countP Ev.isImageFetch = k) ∧
    (∀ (q : String) (fuel' g' : Nat),
      chapterRun cdir [q] (fun _ _ => false) false fuel' g' [] = none) := by
  refine ⟨⟨fun hs => ?_, fun he => ?_⟩, fun files' evs gf h => ?_,
    fun q fuel' g' => chapterRun_unbounded cdir q fuel' g'⟩
  · cases hr : chapterRun cdir pages sc replace fuel g files with
    | none =>
      rw [hr] at hs
      simp at hs
    | some r =>
      obtain ⟨f1, evs1, gf1⟩ := r
      obtain ⟨k, hk, hclean, -⟩ :=
        chapterRun_characterize cdir pages sc replace fuel g files _ _ _ hr
      exact ⟨k, hk, hclean⟩
  · obtain ⟨k, hk, hclean⟩ := he
    exact chapterRun_isSome_of_clean cdir pages sc replace fuel g files k
      hk hclean
  · obtain ⟨k, hk, hclean, hmin, hgf, -, hcount⟩ :=
      chapterRun_characterize cdir pages sc replace fuel g files _ _ _ h
    exact ⟨k, hk, hclean, hmin, hgf, hcount⟩

/-- Witness for `retry_loop_restarts`: the always-failing oracle part at
concrete inputs — 7 passes of fuel still do not finish the chapter. -/
theorem retry_loop_restarts_witness :
    chapterRun ["d"] ["p"] (fun _ _ => false) false 7 1 [] = none :=
  (retry_loop_restarts ["d"] ["p"] (fun _ _ => false) false 1 1 []).2.2
    "p" 7 1

/-! ## The background worker (`format/base.py`, claim C7)

A small-step interleaving model of `_Worker` with one submitting thread.
The submitter mirrors `submit` (`base.py` lines 29-33): enqueue
`[event, job]`, then block on `event.wait()`. The worker mirrors `_main`
(lines 43-54): pop the queue, run the job under
`try: job() except Exception: pass`, then `event.set()`. Jobs are given
by whether they raise; the queue holds job indices in FIFO order. -/

/-- A job's execution outcome: `.error` if it raises. -/
def jobRun (raises : Bool) : Except Unit Unit :=
  if raises then .error () else .ok ()

/-- `try: job() except Exception: pass` (`base.py` lines 50-53). -/
def tryExceptPass (r : Except Unit Unit) : Except Unit Unit :=
  match r with
  | .ok _ => .ok ()
  | .error _ => .ok ()

/-- One `_main` loop body on a job: run it under the handler, then
`event.set()`. Returns (event set, worker thread died of an uncaught
exception). An uncaught exception would abort before `event.set()`. -/
def workerIter (raises : Bool) : Bool × Bool :=
  match tryExceptPass (jobRun raises) with
  | .ok _ => (true, false)
  | .error _ => (false, true)

/-- One `_main` loop body together with the log records it emits
(`base.py` lines 43-54). The handler body on line 53 is `pass` and
`format/base.py` performs no logging anywhere, so the record list is
empty on both paths. -/
def workerIterLog (raises : Bool) : Bool × Bool × List String :=
  match tryExceptPass (jobRun raises) with
  | .ok _ => (true, false, [])
  | .error _ => (false, true, [])

/-- The shared state of the submitter and worker threads. -/
structure WState where
  submitted : Nat        -- number of jobs whose `submit` call has returned
  waiting : Bool         -- submitter is blocked in `event.wait()`
  queue : List Nat       -- FIFO queue of job indices
  executed : List Nat    -- job indices in order of execution
  eventsSet : List Nat   -- job indices whose completion event is set
  workerDead : Bool      -- worker loop aborted by an uncaught exception
  deriving DecidableEq, Repr

def WState.init : WState := ⟨0, false, [], [], [], false⟩

/-- Interleaving steps: the submitter enqueues and blocks, the submitter
wakes when its event is set, the worker pops and runs one job. -/
inductive WStep (jobs : List Bool) : WState → WState → Prop where
  | put : ∀ s, s.waiting = false → s.submitted < jobs.length →
      WStep jobs s { s with waiting := true, queue := s.queue ++ [s.submitted] }
  | wake : ∀ s, s.waiting = true → s.submitted ∈ s.eventsSet →
      WStep jobs s { s with waiting := false, submitted := s.submitted + 1 }
  | exec : ∀ s j rest, s.workerDead = false → s.queue = j :: rest →
      WStep jobs s
        { s with
          queue := rest,
          executed := s.executed ++ [j],
          eventsSet :=
            if (workerIter (jobs.getD j false)).1 then j :: s.eventsSet
            else s.eventsSet,
          workerDead := (workerIter (jobs.getD j false)).2 }

/-- States reachable from the initial state. -/
inductive WReach (jobs : List Bool) : WState → Prop where
  | init : WReach jobs WState.init
  | step : ∀ s t, WReach jobs s → WStep jobs s t → WReach jobs t

/-- The worker-loop body always sets the event and never kills the loop:
the `except Exception: pass` handler swallows a raising job. -/
theorem workerIter_eq (raises : Bool) : workerIter raises = (true, false) := by
  cases raises <;> rfl

/-- Inductive invariant of the worker system. -/
def WInv (jobs : List Bool) (s : WState) : Prop :=
  s.executed = List.range s.executed.length ∧
  (∀ x, x ∈ s.eventsSet ↔ x < s.executed.length) ∧
  s.workerDead = false ∧
  ((s.waiting = false ∧ s.queue = [] ∧ s.executed.length = s.submitted) ∨
   (s.waiting = true ∧ s.submitted < jobs.length ∧
     ((s.queue = [s.submitted] ∧ s.executed.length = s.submitted) ∨
      (s.queue = [] ∧ s.executed.length = s.submitted + 1))))

theorem winv_init (jobs : List Bool) : WInv jobs WState.init := by
  refine ⟨rfl, fun x => ?_, rfl, Or.inl ⟨rfl, rfl, rfl⟩⟩
  simp [WState.init]

theorem winv_step (jobs : List Bool) (s t : WState) (hi : WInv jobs s)
    (hs : WStep jobs s t) : WInv jobs t := by
  obtain ⟨hexec, hev, hdead, hcase⟩ := hi
  cases hs with
  | put hw hlt =>
    rcases hcase with ⟨hw', hq, hlen⟩ | ⟨hw', -⟩
    · exact ⟨hexec, hev, hdead,
        Or.inr ⟨rfl, hlt, Or.inl ⟨by simp [hq], hlen⟩⟩⟩
    · rw [hw'] at hw
      cases hw
  | wake hw hin =>
    rcases hcase with ⟨hw', -⟩ | ⟨-, -, hsub⟩
    · rw [hw'] at hw
      cases hw
    · rcases hsub with ⟨-, hlen⟩ | ⟨hq, hlen⟩
      · have := (hev _).mp hin
        omega
      · exact ⟨hexec, hev, hdead, Or.inl ⟨rfl, hq, by simpa using hlen⟩⟩
  | exec j rest hd hq =>
    rw [workerIter_eq]
    rcases hcase with ⟨-, hq', -⟩ | ⟨hw', hlt, hsub⟩
    · rw [hq'] at hq
      cases hq
    · rcases hsub with ⟨hq', hlen⟩ | ⟨hq', hlen⟩
      · rw [hq'] at hq
        have hj : j = s.submitted := (List.cons.inj hq).1.symm
        have hrest : rest = [] := (List.cons.inj hq).2.symm
        refine ⟨?_, fun x => ?_, rfl,
          Or.inr ⟨hw', hlt, Or.inr ⟨hrest, by simp [hlen]⟩⟩⟩
        · have hlen2 : (s.executed ++ [j]).length = s.executed.length + 1 := by
            simp
          rw [hlen2, List.range_succ, ← hexec, hj, ← hlen]
        · show (x ∈ j :: s.eventsSet) ↔ x < (s.executed ++ [j]).length
          rw [List.mem_cons, List.length_append]
          have hx := hev x
          constructor
          · rintro (rfl | hxm)
            · simp
              omega
            · have := hx.mp hxm
              simp
              omega
          · intro hlt2
            by_cases hxe : x < s.executed.length
            · exact Or.inr (hx.mpr hxe)
            · left
              simp at hlt2
              omega
      · rw [hq'] at hq
        cases hq

/-- All reachable states satisfy the invariant. -/
theorem winv_reach (jobs : List Bool) (s : WState) (h : WReach jobs s) :
    WInv jobs s := by
  induction h with
  | init => exact winv_init jobs
  | step s t hr hs ih => exact winv_step jobs s t ih hs

/-- **C7, counterexample.** The exception handler of `_Worker._main`
(`base.py` lines 52-53) is `except Exception: pass`, and `format/base.py`
performs no logging: running a raising job emits no log record at all,
so the claim that the exception is "logged" is false — it is silently
swallowed (the event is still set and the worker thread survives). -/
theorem worker_exception_not_logged :
    (workerIterLog true).2.2 = [] ∧
    (workerIterLog true).1 = true ∧
    (workerIterLog true).2.1 = false := by
  decide

/-- **C7 (amended).** For every job submitted to the worker, `submit`
blocks until that job has finished executing (the submitter's counter
passes an index only once that job has executed); the worker runs jobs
one at a time in submission order (the execution log is always
`0, 1, 2, ...`); a job that raises neither terminates the worker loop
(`workerDead` never becomes true) nor leaves the submitter blocked — the
handler silently swallows the exception (it emits no log record, rather
than logging it), the per-job completion event is still set for every
executed job, and a blocked submitter whose event is set can always take
the wake step. -/
theorem worker_submit_blocks_swallow (jobs : List Bool) (s : WState)
    (h : WReach jobs s) :
    s.executed = List.range s.executed.length ∧
    (∀ j, j < s.submitted → j ∈ s.executed) ∧
    s.workerDead = false ∧
    (∀ j ∈ s.executed, j ∈ s.eventsSet) ∧
    (s.waiting = true → s.submitted ∈ s.eventsSet → ∃ t, WStep jobs s t) ∧
    (∀ r, workerIter r = (true, false)) ∧
    (∀ r, workerIterLog r = (true, false, []) ∧
      ((workerIterLog r).1, (workerIterLog r).2.1) = workerIter r) := by
  obtain ⟨hexec, hev, hdead, hcase⟩ := winv_reach jobs s h
  refine ⟨hexec, fun j hj => ?_, hdead, fun j hj => ?_,
    fun hw hin => ⟨_, WStep.wake s hw hin⟩, workerIter_eq,
    fun r => by cases r <;> exact ⟨rfl, rfl⟩⟩
  · have hlen : s.submitted ≤ s.executed.length := by
      rcases hcase with ⟨-, -, hlen⟩ | ⟨-, -, ⟨-, hlen⟩ | ⟨-, hlen⟩⟩ <;> omega
    rw [hexec]
    rw [List.mem_range]
    omega
  · rw [hexec] at hj
    rw [List.mem_range] at hj
    exact (hev j).mpr hj

/-- Witness for `worker_submit_blocks_swallow`: the state reached after
submitting and executing one raising job — the worker survives, the event
is set, and the iteration emitted no log record. -/
theorem worker_submit_blocks_swallow_witness :
    (⟨0, true, [], [0], [0], false⟩ : WState).workerDead = false ∧
    (∀ j ∈ (⟨0, true, [], [0], [0], false⟩ : WState).executed,
      j ∈ (⟨0, true, [], [0], [0], false⟩ : WState).eventsSet) ∧
    workerIterLog true = (true, false, []) := by
  have hreach : WReach [true] (⟨0, true, [], [0], [0], false⟩ : WState) := by
    have h1 := WReach.step _ _ (WReach.init : WReach [true] WState.init)
      (WStep.put WState.init rfl (by decide))
    have h2 := WReach.step _ _ h1
      (WStep.exec { WState.init with waiting := true, queue := [0] } 0 []
        rfl rfl)
    exact h2
  have hthm := worker_submit_blocks_swallow [true] _ hreach
  exact ⟨hthm.2.2.1, hthm.2.2.2.1, (hthm.2.2.2.2.2.2 true).1⟩

end MangadexDL
